import Mathlib

/-!
Verification of the `mofox-wire` message runtime against its specification.

This file gives a shallow embedding of the parts of
`src/build/lib/mofox_wire/runtime.py` and `src/mofox_wire/adapter_utils.py`
that the verified properties talk about, and proves or refutes each
property over that embedding.

Modelling conventions:
* Python values that appear in envelopes are modelled by `PyVal`
  (the shapes `None`, `str`, `dict`, `list` are the only ones the
  envelope contract uses).  Python truthiness is `PyVal.truthy`.
* Asynchronous callables are modelled as pure functions; a callable
  that can raise returns `Except PyErr _` (or `Option PyErr` for
  hooks, which return no value).
* `asyncio.gather` over hooks is modelled as invoking every hook and
  propagating the first exception: gather schedules every task and
  re-raises the first failure.
* Object identity (`id(route)`) is modelled by the index of the route
  in the authoritative `routes` list; the type/event buckets store
  those indices, which is exactly the sharing the Python lists of
  object references give.
* Dispatch steps are recorded in an event trace so that invocation
  and ordering properties can be stated.
-/

/-- Python values as they occur in message envelopes: `None`, strings,
dicts with string keys, and lists.  (`message_segment`, `message_chain`,
`platform`, `id`, ... all live in this universe.) -/
inductive PyVal where
  | none : PyVal
  | str : String → PyVal
  | dict : List (String × PyVal) → PyVal
  | list : List PyVal → PyVal

/-- Python truthiness for the modelled value shapes: `None` is falsy,
a string is truthy iff non-empty, a dict or list iff non-empty. -/
def PyVal.truthy : PyVal → Bool
  | .none => false
  | .str s => !s.isEmpty
  | .dict fs => !fs.isEmpty
  | .list xs => !xs.isEmpty

/-- Python `a or b`: `a` when `a` is truthy, otherwise `b`. -/
def pyOr (a b : PyVal) : PyVal := if a.truthy then a else b

/-- Python `m.get(k)` on a dict: the stored value when the key is
present, `None` otherwise.  A stored `None` and a missing key are
indistinguishable here, exactly as for `.get(k)`.  On a non-dict the
model yields `None` (in Python this would raise; no modelled claim
reaches that case with a non-dict). -/
def PyVal.get : PyVal → String → PyVal
  | .dict fs, k => (fs.lookup k).getD .none
  | _, _ => .none

/-- Python `m.get(k, default)` on a dict: the stored value when the key
is present (even a stored `None`), the default otherwise. -/
def PyVal.getD : PyVal → String → PyVal → PyVal
  | .dict fs, k, dflt => (fs.lookup k).getD dflt
  | _, _, dflt => dflt

/-- Python `k in m` for a dict. -/
def PyVal.hasKey : PyVal → String → Bool
  | .dict fs, k => (fs.lookup k).isSome
  | _, _ => false

/-- Python `v is None`. -/
def PyVal.isNone : PyVal → Bool
  | .none => true
  | _ => false

/-- Python `v == s` between an arbitrary value and a string: true only
when `v` is that very string (Python equality across types is `False`). -/
def PyVal.eqStr : PyVal → String → Bool
  | .str s, t => s == t
  | _, _ => false

/-- Python `v in set_of_strings`: membership holds only for an equal
string element. -/
def PyVal.memStrSet : PyVal → List String → Bool
  | .str s, set => set.contains s
  | _, _ => false

/-- The `type` field of a candidate segment value, following the body of
`_extract_segment_type`: a dict yields `seg.get("type")`; a non-empty
list whose first element is a dict yields `first.get("type")`; anything
else yields `None`. -/
def segTypeOf : PyVal → PyVal
  | .dict fs => (fs.lookup "type").getD .none
  | .list (first :: _) =>
    match first with
    | .dict fs => (fs.lookup "type").getD .none
    | _ => .none
  | _ => .none

/-- `_extract_segment_type(message)` from `runtime.py`:
`seg = message.get("message_segment") or message.get("message_chain")`,
then read the `type` field of `seg`. -/
def extract_segment_type (message : PyVal) : PyVal :=
  segTypeOf (pyOr (message.get "message_segment") (message.get "message_chain"))

example : extract_segment_type
    (.dict [("message_segment", .dict [("type", .str "text")])]) = .str "text" := rfl
example : extract_segment_type (.dict [("message_chain",
    .list [.dict [("type", .str "image")]])]) = .str "image" := rfl
example : extract_segment_type (.dict []) = .none := rfl

/-- Exceptions that flow through the dispatch pipeline.  `userErr` stands
for an arbitrary exception raised by user code (hooks, predicates,
middlewares, handlers), identified by a tag.  `processingError` is
`MessageProcessingError(message, original)`: it stores the envelope, the
`detail` that appears in the message text (`message.get("id", "<unknown>")`)
and the original cause. -/
inductive PyErr where
  | userErr : Nat → PyErr
  | processingError : PyVal → PyVal → PyErr → PyErr

/-- Events recorded while dispatching, used to state invocation-order
properties.  Hook and predicate invocations are recorded by the
dispatcher; middleware and handler events are emitted by the (modelled)
middlewares and handlers themselves. -/
inductive Event where
  | beforeHook : Nat → PyVal → Event
  | afterHook : Nat → PyVal → Event
  | errorHook : Nat → PyVal → PyErr → Event
  | predicateEval : Nat → PyVal → Event
  | mwEnter : Nat → Event
  | mwExit : Nat → Event
  | handlerRun : PyVal → Event

/-- A message handler: may raise, may return a response envelope or
`None`, and emits its own trace events. -/
def HandlerFn : Type := PyVal → List Event × Except PyErr (Option PyVal)

/-- A predicate: may raise, otherwise yields a boolean. -/
def PredicateFn : Type := PyVal → Except PyErr Bool

/-- A before/after hook: returns nothing, may raise. -/
def HookFn : Type := PyVal → Option PyErr

/-- An error hook: receives the envelope and the original exception,
returns nothing, may raise. -/
def ErrorHookFn : Type := PyVal → PyErr → Option PyErr

/-- A middleware `middleware(envelope, next)`: receives the envelope and
the next callable of the onion. -/
def Mw : Type :=
  PyVal → (PyVal → List Event × Except PyErr (Option PyVal)) →
    List Event × Except PyErr (Option PyVal)

/-- A batch handler: receives the whole batch, may raise, may return a
list of responses or `None`. -/
def BatchHandlerFn : Type := List PyVal → List Event × Except PyErr (Option (List PyVal))

/-- `MessageRoute` from `runtime.py` (the `rid` identity used for
deduplication is the index of the route in `MessageRuntime.routes`, so
the dataclass itself carries only the declared fields). -/
structure MessageRoute where
  predicate : PredicateFn
  handler : HandlerFn
  name : Option String := .none
  messageType : Option String := .none
  messageTypes : Option (List String) := .none
  eventTypes : Option (List String) := .none

/-- The mutable state of `MessageRuntime`.  Buckets (`typeRoutes`,
`eventRoutes`) store indices into `routes`, modelling the Python lists
of references to the very same route objects; `id(route)` is the index.
Dicts are modelled as insertion-ordered association lists, matching the
Python dict semantics used here. -/
structure MessageRuntime where
  routes : List MessageRoute := []
  typeRoutes : List (String × List Nat) := []
  eventRoutes : List (String × List Nat) := []
  explicitTypeHandlers : List (String × String) := []
  beforeHooks : List HookFn := []
  afterHooks : List HookFn := []
  errorHooks : List ErrorHookFn := []
  middlewares : List Mw := []
  batchHandler : Option BatchHandlerFn := .none

/-- The value passed as the `message_type` argument of `add_route` /
`on_message`.  Python discriminates at runtime with
`isinstance(message_type, str)` and `isinstance(message_type, list)`;
any other value, including genuine sequences such as tuples, falls into
the last branch.  `tuple` and `other` are kept separate so that a
tuple of strings can be named as an input. -/
inductive MsgTypeArg where
  | none : MsgTypeArg
  | str : String → MsgTypeArg
  | list : List String → MsgTypeArg
  | tuple : List String → MsgTypeArg
  | other : MsgTypeArg

/-- Errors raised by `add_route`: `typeError` for an invalid
`message_type` shape, and `valueError t owner newcomer` for a duplicate
explicit registration of `t` (the raised message names the type, the
registered owner and the rejected handler). -/
inductive AddRouteErr where
  | typeError : AddRouteErr
  | valueError : String → String → String → AddRouteErr
  deriving DecidableEq

/-- The normalisation of `message_type` at the top of `add_route`:
a string becomes the singleton set (and the single type), a list becomes
`set(message_type)` (modelled as first-occurrence deduplication; CPython
set iteration order is unspecified, this fixes one realisable order)
with the single type set only when the set has exactly one element.
Everything else raises `TypeError`. -/
def computeTypeSet : MsgTypeArg → Except Unit (Option (List String) × Option String)
  | .none => .ok (.none, .none)
  | .str s => .ok (.some [s], .some s)
  | .list xs =>
    let d := xs.eraseDups
    .ok (.some d, if d.length == 1 then d.head? else .none)
  | .tuple _ => .error ()
  | .other => .error ()

/-- Python `name or getattr(handler, "__name__", str(handler))`: the
explicit name wins unless it is falsy (absent or empty). -/
def effName (name : Option String) (display : String) : String :=
  match name with
  | .some s => if s.isEmpty then display else s
  | .none => display

/-- The duplicate-registration loop of `add_route`: for each type in
the incoming set, fail if `explicit_type_handlers` already owns it,
otherwise record the new owner, then continue.  Note that owners
recorded before a later collision stay recorded: the raise does not
undo them. -/
def checkDup (explicit : List (String × String)) (hname : String) :
    List String → List (String × String) × Option AddRouteErr
  | [] => (explicit, .none)
  | t :: ts =>
    match explicit.lookup t with
    | .some owner => (explicit, .some (.valueError t owner hname))
    | .none => checkDup (explicit ++ [(t, hname)]) hname ts

/-- `setdefault(k, []).append(i)` on an insertion-ordered dict of
buckets. -/
def bucketAdd : List (String × List Nat) → String → Nat → List (String × List Nat)
  | [], k, i => [(k, [i])]
  | (k', b) :: rest, k, i =>
    if k' == k then (k', b ++ [i]) :: rest else (k', b) :: bucketAdd rest k i

/-- `MessageRuntime.add_route`.  Returns the post-call state together
with the raised error, if any; on a raise the returned state is the
state the Python object is left in (mutations made before the raise
are kept).  `handlerDisplay` stands for
`getattr(handler, "__name__", str(handler))`. -/
def MessageRuntime.add_route (rt : MessageRuntime) (predicate : PredicateFn)
    (handler : HandlerFn) (name : Option String) (messageType : MsgTypeArg)
    (eventTypes : Option (List String)) (handlerDisplay : String) :
    MessageRuntime × Option AddRouteErr :=
  match computeTypeSet messageType with
  | .error _ => (rt, .some .typeError)
  | .ok (mtsSet, singleType) =>
    let hname := effName name handlerDisplay
    let dupRes :=
      match mtsSet with
      | .some mts => checkDup rt.explicitTypeHandlers hname mts
      | .none => (rt.explicitTypeHandlers, Option.none)
    match dupRes with
    | (explicit2, .some err) =>
      ({ rt with explicitTypeHandlers := explicit2 }, .some err)
    | (explicit2, .none) =>
      let evSet := eventTypes.map List.eraseDups
      let route : MessageRoute :=
        { predicate := predicate, handler := handler, name := name,
          messageType := singleType, messageTypes := mtsSet, eventTypes := evSet }
      let idx := rt.routes.length
      ({ rt with
          routes := rt.routes ++ [route],
          explicitTypeHandlers := explicit2,
          typeRoutes := ((mtsSet.getD []).foldl (fun m t => bucketAdd m t idx) rt.typeRoutes),
          eventRoutes := ((evSet.getD []).foldl (fun m t => bucketAdd m t idx) rt.eventRoutes) },
       .none)

/-- The event type computed at the top of `_match_route`:
`message.get("event_type") or
message.get("message_info", {}).get("additional_config", {}).get("event_type")`. -/
def eventTypeOf (message : PyVal) : PyVal :=
  pyOr (message.get "event_type")
    (((message.getD "message_info" (.dict [])).getD "additional_config"
        (.dict [])).get "event_type")

/-- The priority candidates of `_match_route`: the event bucket (when
the event type is truthy and a key of `event_routes`) followed by the
type bucket (same conditions on the segment type).  A truthy non-string
value can never equal a string dict key, so only string values select a
bucket. -/
def priorityIdx (rt : MessageRuntime) (message : PyVal) : List Nat :=
  let evIdx :=
    match eventTypeOf message with
    | .str s => if s.isEmpty then [] else (rt.eventRoutes.lookup s).getD []
    | _ => []
  let tyIdx :=
    match extract_segment_type message with
    | .str s => if s.isEmpty then [] else (rt.typeRoutes.lookup s).getD []
    | _ => []
  evIdx ++ tyIdx

/-- The generic candidates of `_match_route`: the indices of the routes
whose `message_types` and `event_types` are both `None`, in insertion
order. -/
def normalIdx (rt : MessageRuntime) : List Nat :=
  (List.range rt.routes.length).filter (fun i =>
    match rt.routes[i]? with
    | .some r => r.messageTypes.isNone && r.eventTypes.isNone
    | .none => false)

/-- One candidate loop of `_match_route`: walk the candidate indices,
skip the ones already seen, record each predicate evaluation, stop at
the first truthy predicate (returning the index and the route) or
propagate the first predicate exception.  Returns the trace, the final
seen set and the outcome. -/
def matchLoop (routes : List MessageRoute) (message : PyVal) (seen : List Nat) :
    List Nat → List Event × List Nat × Except PyErr (Option (Nat × MessageRoute))
  | [] => ([], seen, .ok .none)
  | i :: is =>
    if i ∈ seen then matchLoop routes message seen is
    else
      match routes[i]? with
      | .none => matchLoop routes message (i :: seen) is
      | .some r =>
        match r.predicate message with
        | .error e => ([.predicateEval i message], i :: seen, .error e)
        | .ok true => ([.predicateEval i message], i :: seen, .ok (.some (i, r)))
        | .ok false =>
          let rest := matchLoop routes message (i :: seen) is
          (.predicateEval i message :: rest.1, rest.2)

/-- `MessageRuntime._match_route`: try the priority candidates first,
then (with the same seen set) the generic candidates. -/
def MessageRuntime.match_route (rt : MessageRuntime) (message : PyVal) :
    List Event × Except PyErr (Option (Nat × MessageRoute)) :=
  match matchLoop rt.routes message [] (priorityIdx rt message) with
  | (t1, seen1, .ok .none) =>
    let rest := matchLoop rt.routes message seen1 (normalIdx rt)
    (t1 ++ rest.1, rest.2.2)
  | (t1, _, .ok (.some ir)) => (t1, .ok (.some ir))
  | (t1, _, .error e) => (t1, .error e)

/-- `MessageRuntime._run_hooks` via `asyncio.gather`: every hook is
invoked with the envelope (each invocation is recorded with the index
of the hook), and the first raised exception propagates. -/
def runHooks (hooks : List HookFn) (tag : Nat → PyVal → Event) (message : PyVal) :
    List Event × Option PyErr :=
  ((List.range hooks.length).map (fun i => tag i message),
   (hooks.map (fun h => h message)).findSome? id)

/-- `MessageRuntime._run_error_hooks`: every error hook is invoked with
the envelope and the original exception; the first raised exception
propagates. -/
def runErrorHooks (hooks : List ErrorHookFn) (message : PyVal) (exc : PyErr) :
    List Event × Option PyErr :=
  ((List.range hooks.length).map (fun i => Event.errorHook i message exc),
   (hooks.map (fun h => h message exc)).findSome? id)

/-- `MessageRuntime._wrap_with_middlewares`: starting from the base
handler, wrap each middleware in reverse registration order, so the
first registered middleware ends up outermost. -/
def wrap_with_middlewares (mws : List Mw) (handler : HandlerFn) : HandlerFn :=
  mws.foldr (fun mw next => fun message => mw message next) handler

/-- The `detail` stored in the text of `MessageProcessingError`:
`message.get("id", "<unknown>")`. -/
def errDetail (message : PyVal) : PyVal :=
  message.getD "id" (.str "<unknown>")

/-- `MessageRuntime.handle_message`:
1. run the before-hooks (outside the `try`: an exception here
   propagates unwrapped, without error-hooks);
2. match a route; absence returns `None` without after-hooks;
3. run the matched handler wrapped in the middleware onion;
4. an exception from matching (predicates) or from the chain runs the
   error-hooks and is wrapped into `MessageProcessingError`, unless an
   error-hook itself raises, in which case that exception propagates;
5. on success run the after-hooks (outside the `try`) and return the
   result. -/
def MessageRuntime.handle_message (rt : MessageRuntime) (message : PyVal) :
    List Event × Except PyErr (Option PyVal) :=
  let before := runHooks rt.beforeHooks Event.beforeHook message
  match before.2 with
  | .some e => (before.1, .error e)
  | .none =>
    match rt.match_route message with
    | (tm, .error e) =>
      let eh := runErrorHooks rt.errorHooks message e
      match eh.2 with
      | .some e2 => (before.1 ++ tm ++ eh.1, .error e2)
      | .none =>
        (before.1 ++ tm ++ eh.1, .error (.processingError message (errDetail message) e))
    | (tm, .ok .none) => (before.1 ++ tm, .ok .none)
    | (tm, .ok (.some (_, route))) =>
      match wrap_with_middlewares rt.middlewares route.handler message with
      | (th, .error e) =>
        let eh := runErrorHooks rt.errorHooks message e
        match eh.2 with
        | .some e2 => (before.1 ++ tm ++ th ++ eh.1, .error e2)
        | .none =>
          (before.1 ++ tm ++ th ++ eh.1,
           .error (.processingError message (errDetail message) e))
      | (th, .ok result) =>
        let after := runHooks rt.afterHooks Event.afterHook message
        match after.2 with
        | .some e => (before.1 ++ tm ++ th ++ after.1, .error e)
        | .none => (before.1 ++ tm ++ th ++ after.1, .ok result)

/-- The serial loop of `handle_batch` when no custom batch handler is
set: dispatch each envelope via `handle_message`, in order, collecting
the non-`None` responses; an exception stops the loop and propagates. -/
def batchLoop (rt : MessageRuntime) : List PyVal → List Event × Except PyErr (List PyVal)
  | [] => ([], .ok [])
  | m :: ms =>
    match rt.handle_message m with
    | (t, .error e) => (t, .error e)
    | (t, .ok res) =>
      match batchLoop rt ms with
      | (t2, .error e) => (t ++ t2, .error e)
      | (t2, .ok rest) =>
        (t ++ t2, .ok (match res with | .some v => v :: rest | .none => rest))

/-- `MessageRuntime.handle_batch`: an empty batch returns `[]` at once;
with a custom batch handler set, delegate and return `result or []`
(`None` and the empty list both yield `[]`); otherwise run the serial
loop. -/
def MessageRuntime.handle_batch (rt : MessageRuntime) (messages : List PyVal) :
    List Event × Except PyErr (List PyVal) :=
  if messages.isEmpty then ([], .ok [])
  else
    match rt.batchHandler with
    | .some bh =>
      match bh messages with
      | (t, .error e) => (t, .error e)
      | (t, .ok res) => (t, .ok (res.getD []))
    | .none => batchLoop rt messages

/-- The `combined_predicate` closure built by `MessageRuntime.on_message`
for a registration with optional `message_type` set, `platform` filter
and custom predicate:
1. with a type set, reject when the extracted segment type is not a
   member of the set;
2. with a platform filter, reject when the top-level `platform` is
   neither `None` nor the filter while `message_info.platform` is
   `None`, and reject when `message_info.platform` is neither `None`
   nor the filter;
3. finally defer to the custom predicate, defaulting to accept. -/
def combined_predicate (messageTypesSet : Option (List String))
    (platform : Option String) (predicate : Option PredicateFn)
    (message : PyVal) : Except PyErr Bool :=
  let typeReject :=
    match messageTypesSet with
    | .some mts => !(extract_segment_type message).memStrSet mts
    | .none => false
  if typeReject then .ok false
  else
    let infoPlatform := (message.getD "message_info" (.dict [])).get "platform"
    let topPlatform := message.get "platform"
    let platReject :=
      match platform with
      | .some p =>
        (!(topPlatform.isNone || topPlatform.eqStr p) && infoPlatform.isNone) ||
        !(infoPlatform.isNone || infoPlatform.eqStr p)
      | .none => false
    if platReject then .ok false
    else
      match predicate with
      | .none => .ok true
      | .some pr => pr message

/-- The platform tag computed by `AdapterBase._on_outgoing_from_core`:
`envelope.get("platform") or envelope.get("message_info", {}).get("platform")`
(the first truthy of the two). -/
def outgoingPlatformTag (envelope : PyVal) : PyVal :=
  pyOr (envelope.get "platform")
    ((envelope.getD "message_info" (.dict [])).get "platform")

/-- `AdapterBase._on_outgoing_from_core` for an adapter whose `platform`
attribute is `adapterPlatform`, returning the number of
`_send_platform_message` invocations: the envelope is ignored when the
computed tag is truthy and differs from the adapter platform, and sent
exactly once otherwise. -/
def on_outgoing_from_core (adapterPlatform : String) (envelope : PyVal) : Nat :=
  let platform := outgoingPlatformTag envelope
  if platform.truthy && !platform.eqStr adapterPlatform then 0 else 1

/-- An envelope whose `message_segment` key is present but holds an
empty (falsy) mapping, while `message_chain` holds a text segment. -/
def envC5 : PyVal :=
  .dict [("message_segment", .dict []),
         ("message_chain", .list [.dict [("type", .str "text")]])]

/-- C5, counterexample: `message_segment` is present in the envelope
(an empty mapping, whose own `type` field is absent), yet the extracted
type is read from `message_chain` — the claim that a present (even
empty) `message_segment` never has its type read from `message_chain`
fails, because the source selects the segment with Python truthiness
(`or`), not with key presence. -/
theorem extract_segment_type_empty_segment_counterexample :
    envC5.hasKey "message_segment" = true ∧
    segTypeOf (envC5.get "message_segment") = .none ∧
    extract_segment_type envC5 = .str "text" :=
  ⟨rfl, rfl, rfl⟩

/-- C5, amended: `extract_segment_type` chooses `message_segment` only
when that value is truthy (present and non-empty); otherwise — absent,
`None`, or an empty mapping — the type is read from `message_chain`.
The `type` field of the chosen value is returned per `segTypeOf`. -/
theorem extract_segment_type_truthiness (message : PyVal) :
    extract_segment_type message =
      (if (message.get "message_segment").truthy
       then segTypeOf (message.get "message_segment")
       else segTypeOf (message.get "message_chain")) := by
  simp only [extract_segment_type, pyOr, apply_ite segTypeOf]

/-- An envelope carrying two conflicting platform tags. -/
def envC8 : PyVal :=
  .dict [("platform", .str "qq"),
         ("message_info", .dict [("platform", .str "discord")])]

/-- C8, counterexample: for an adapter with platform `"qq"`, the
envelope `envC8` carries a platform tag (`message_info.platform`,
namely `"discord"`) that mismatches the adapter platform, yet
`_send_platform_message` is still invoked once: the code only consults
the first truthy tag (here the matching top-level `"qq"`), so the claim
that any carried mismatching tag suppresses the send fails. -/
theorem on_outgoing_conflicting_tags_counterexample :
    (envC8.getD "message_info" (.dict [])).get "platform" = .str "discord" ∧
    ("discord" : String) ≠ "qq" ∧
    on_outgoing_from_core "qq" envC8 = 1 :=
  ⟨rfl, by decide, rfl⟩

/-- C8, amended: the adapter considers only the effective tag
`envelope.get("platform") or envelope.get("message_info", {}).get("platform")`
(the first truthy of the two).  When that tag is truthy and differs
from the adapter platform the envelope is ignored (no send); otherwise
— the tag equals the adapter platform, or no truthy tag is present —
`_send_platform_message` is invoked exactly once. -/
theorem on_outgoing_effective_tag (p : String) (envelope : PyVal) :
    ((outgoingPlatformTag envelope).truthy = true →
      (outgoingPlatformTag envelope).eqStr p = false →
      on_outgoing_from_core p envelope = 0) ∧
    ((outgoingPlatformTag envelope).truthy = false ∨
        (outgoingPlatformTag envelope).eqStr p = true →
      on_outgoing_from_core p envelope = 1) := by
  unfold on_outgoing_from_core
  constructor
  · intro h1 h2
    simp [h1, h2]
  · rintro (h | h) <;> simp [h]

/-- An envelope whose only platform information is a mismatching
`message_info.platform`. -/
def envC8w : PyVal := .dict [("message_info", .dict [("platform", .str "discord")])]

/-- C8, witness: the amended theorem applied at concrete inputs — the
mismatching-tag envelope is ignored, the conflicting-tag envelope (whose
effective tag matches) is sent once. -/
theorem on_outgoing_effective_tag_witness :
    on_outgoing_from_core "qq" envC8w = 0 ∧ on_outgoing_from_core "qq" envC8 = 1 :=
  ⟨(on_outgoing_effective_tag "qq" envC8w).1 rfl rfl,
   (on_outgoing_effective_tag "qq" envC8).2 (Or.inr rfl)⟩

/-- A middleware that records its entry, invokes `next` exactly once,
and records its exit — the observable shape the onion-order property
is about. -/
def tracingMw (i : Nat) : Mw := fun message next =>
  match next message with
  | (t, r) => (Event.mwEnter i :: (t ++ [Event.mwExit i]), r)

/-- C4: for any registration sequence of (tracing) middlewares, the
chain composed by `_wrap_with_middlewares` enters the middlewares in
registration order, then runs the handler, then exits in reverse
registration order — the first registered middleware is the outermost
wrapper — and the chain result is the handler result. -/
theorem wrap_with_middlewares_onion_order (labels : List Nat) (handler : HandlerFn)
    (message : PyVal) :
    wrap_with_middlewares (labels.map tracingMw) handler message =
      (labels.map Event.mwEnter ++ (handler message).1 ++
        labels.reverse.map Event.mwExit,
       (handler message).2) := by
  induction labels with
  | nil => simp [wrap_with_middlewares]
  | cons l ls ih =>
    have hstep : wrap_with_middlewares ((l :: ls).map tracingMw) handler message =
        tracingMw l message (wrap_with_middlewares (ls.map tracingMw) handler) := rfl
    rw [hstep, tracingMw, ih]
    simp [List.append_assoc]

/-- C9: the platform filter built into the `on_message` combined
predicate is a no-op on an envelope that carries neither a top-level
`platform` field nor a `message_info.platform` field — the filter only
rejects envelopes bearing a mismatching tag; it never requires the tag
to be present. -/
theorem combined_predicate_platform_absent_passes (mts : Option (List String))
    (p : String) (pred : Option PredicateFn) (message : PyVal)
    (h1 : message.get "platform" = .none)
    (h2 : (message.getD "message_info" (.dict [])).get "platform" = .none) :
    combined_predicate mts (.some p) pred message =
      combined_predicate mts .none pred message := by
  unfold combined_predicate
  rw [h1, h2]
  simp [PyVal.isNone]

/-- A text envelope with no platform information at all. -/
def msgC9 : PyVal := .dict [("message_segment", .dict [("type", .str "text")])]

/-- C9, witness: a route scoped to platform `"qq"` (with message type
`"text"` and no custom predicate) accepts the platform-less text
envelope. -/
theorem combined_predicate_platform_absent_passes_witness :
    msgC9.get "platform" = .none ∧
    (msgC9.getD "message_info" (.dict [])).get "platform" = .none ∧
    combined_predicate (.some ["text"]) (.some "qq") .none msgC9 =
      combined_predicate (.some ["text"]) .none .none msgC9 ∧
    combined_predicate (.some ["text"]) (.some "qq") .none msgC9 = .ok true :=
  ⟨rfl, rfl, combined_predicate_platform_absent_passes _ "qq" _ msgC9 rfl rfl,
   (combined_predicate_platform_absent_passes _ "qq" _ msgC9 rfl rfl).trans rfl⟩

/-- When every error hook returns normally, the gather over the error
hooks raises nothing. -/
theorem runErrorHooks_no_raise (hooks : List ErrorHookFn) (message : PyVal)
    (exc : PyErr) (h : ∀ hk ∈ hooks, hk message exc = .none) :
    (runErrorHooks hooks message exc).2 = Option.none := by
  unfold runErrorHooks
  induction hooks with
  | nil => rfl
  | cons hk hks ih =>
    have h1 : hk message exc = Option.none := h hk (by simp)
    simp only [List.map_cons, List.findSome?_cons, h1]
    exact ih (fun hk' hm => h hk' (by simp [hm]))

/-- Every error hook is recorded in the trace of the gather over the
error hooks. -/
theorem runErrorHooks_mem_trace (hooks : List ErrorHookFn) (message : PyVal)
    (exc : PyErr) (i : Nat) (hi : i < hooks.length) :
    Event.errorHook i message exc ∈ (runErrorHooks hooks message exc).1 := by
  unfold runErrorHooks
  exact List.mem_map.mpr ⟨i, List.mem_range.mpr hi, rfl⟩

/-- C10: an exception raised by a before-hook propagates out of
`handle_message` unchanged — the before-hook phase runs outside the
`try` block, so the exception is not wrapped in
`MessageProcessingError`, the error hooks are not invoked, no route
matching happens and no handler or middleware runs: the whole trace is
before-hook invocations only. -/
theorem handle_message_before_hook_propagates (rt : MessageRuntime) (message : PyVal)
    (e : PyErr)
    (hb : (runHooks rt.beforeHooks Event.beforeHook message).2 = .some e) :
    rt.handle_message message =
      ((runHooks rt.beforeHooks Event.beforeHook message).1, .error e) ∧
    ∀ ev ∈ (rt.handle_message message).1, ∃ i, ev = Event.beforeHook i message := by
  have h1 : rt.handle_message message =
      ((runHooks rt.beforeHooks Event.beforeHook message).1, .error e) := by
    simp only [MessageRuntime.handle_message, hb]
  refine ⟨h1, ?_⟩
  intro ev hev
  rw [h1] at hev
  simp only [runHooks, List.mem_map, List.mem_range] at hev
  obtain ⟨i, _, hi⟩ := hev
  exact ⟨i, hi.symm⟩

/-- A before-hook that raises. -/
def hookC10 : HookFn := fun _ => .some (.userErr 3)

/-- A runtime whose single before-hook raises. -/
def rtC10 : MessageRuntime := { beforeHooks := [hookC10] }

/-- A minimal envelope with an `id` field. -/
def msgSimple : PyVal := .dict [("id", .str "m-1")]

/-- C10, witness: with a raising before-hook, `handle_message`
propagates exactly that exception and the trace holds only the
before-hook invocation. -/
theorem handle_message_before_hook_propagates_witness :
    (runHooks rtC10.beforeHooks Event.beforeHook msgSimple).2 = .some (.userErr 3) ∧
    rtC10.handle_message msgSimple =
      ([Event.beforeHook 0 msgSimple], .error (.userErr 3)) :=
  ⟨rfl,
   (handle_message_before_hook_propagates rtC10 msgSimple (.userErr 3) rfl).1.trans rfl⟩

/-- C3: when the before-hooks complete and an exception `e` is raised
during route matching (a predicate) or inside the middleware/handler
chain, and the error hooks themselves return normally, then every
registered error hook is invoked with the envelope and the original
exception (each invocation is in the trace, hence before propagation),
and `handle_message` fails with a `MessageProcessingError` carrying the
envelope, the original exception as cause, and the detail
`message.get("id", "<unknown>")` used in the message text. -/
theorem handle_message_wraps_processing_error (rt : MessageRuntime) (message : PyVal)
    (e : PyErr)
    (hb : (runHooks rt.beforeHooks Event.beforeHook message).2 = Option.none)
    (hfail : (rt.match_route message).2 = .error e ∨
      ∃ i r, (rt.match_route message).2 = .ok (.some (i, r)) ∧
        (wrap_with_middlewares rt.middlewares r.handler message).2 = .error e)
    (herr : ∀ hk ∈ rt.errorHooks, hk message e = .none) :
    (rt.handle_message message).2 =
      .error (.processingError message (errDetail message) e) ∧
    ∀ i < rt.errorHooks.length,
      Event.errorHook i message e ∈ (rt.handle_message message).1 := by
  have hno : (runErrorHooks rt.errorHooks message e).2 = Option.none :=
    runErrorHooks_no_raise rt.errorHooks message e herr
  rcases hmr : rt.match_route message with ⟨tm, mres⟩
  rcases hfail with hmatch | ⟨i, r, hok, hchain⟩
  · rw [hmr] at hmatch
    simp only at hmatch
    subst hmatch
    have hmain : rt.handle_message message =
        ((runHooks rt.beforeHooks Event.beforeHook message).1 ++ tm ++
          (runErrorHooks rt.errorHooks message e).1,
         .error (.processingError message (errDetail message) e)) := by
      simp only [MessageRuntime.handle_message, hb, hmr, hno]
    refine ⟨by rw [hmain], ?_⟩
    intro j hj
    rw [hmain]
    simp only [List.mem_append]
    exact Or.inr (runErrorHooks_mem_trace rt.errorHooks message e j hj)
  · rw [hmr] at hok
    simp only at hok
    subst hok
    rcases hch : wrap_with_middlewares rt.middlewares r.handler message with ⟨th, cres⟩
    rw [hch] at hchain
    simp only at hchain
    subst hchain
    have hmain : rt.handle_message message =
        ((runHooks rt.beforeHooks Event.beforeHook message).1 ++ tm ++ th ++
          (runErrorHooks rt.errorHooks message e).1,
         .error (.processingError message (errDetail message) e)) := by
      simp only [MessageRuntime.handle_message, hb, hmr, hch, hno]
    refine ⟨by rw [hmain], ?_⟩
    intro j hj
    rw [hmain]
    simp only [List.mem_append]
    exact Or.inr (runErrorHooks_mem_trace rt.errorHooks message e j hj)

/-- An always-true predicate. -/
def noopPredicate : PredicateFn := fun _ => .ok true

/-- A handler that returns `None` and raises nothing. -/
def noopHandler : HandlerFn := fun _ => ([], .ok .none)

/-- A handler that raises. -/
def raisingHandler : HandlerFn := fun _ => ([], .error (.userErr 7))

/-- An error hook that returns normally. -/
def ehC3 : ErrorHookFn := fun _ _ => .none

/-- A generic route whose handler raises. -/
def routeC3 : MessageRoute := { predicate := noopPredicate, handler := raisingHandler }

/-- A runtime with one raising route and one well-behaved error hook. -/
def rtC3 : MessageRuntime := { routes := [routeC3], errorHooks := [ehC3] }

/-- C3, witness: dispatching the envelope with id `"m-1"` through the
raising handler invokes the error hook with the envelope and the
original exception, and fails with the wrapping `MessageProcessingError`
whose detail is the id. -/
theorem handle_message_wraps_processing_error_witness :
    (runHooks rtC3.beforeHooks Event.beforeHook msgSimple).2 = Option.none ∧
    (rtC3.match_route msgSimple).2 = .ok (.some (0, routeC3)) ∧
    (wrap_with_middlewares rtC3.middlewares routeC3.handler msgSimple).2 =
      .error (.userErr 7) ∧
    (rtC3.handle_message msgSimple).2 =
      .error (.processingError msgSimple (.str "m-1") (.userErr 7)) ∧
    Event.errorHook 0 msgSimple (.userErr 7) ∈ (rtC3.handle_message msgSimple).1 := by
  have herr : ∀ hk ∈ rtC3.errorHooks, hk msgSimple (.userErr 7) = Option.none := by
    intro hk hm
    have hm' : hk ∈ [ehC3] := hm
    rw [List.mem_singleton] at hm'
    subst hm'
    rfl
  have hmain := handle_message_wraps_processing_error rtC3 msgSimple (.userErr 7) rfl
    (Or.inr ⟨0, routeC3, rfl, rfl⟩) herr
  exact ⟨rfl, rfl, rfl, hmain.1.trans (by rfl), hmain.2 0 (by decide)⟩

/-- When every envelope of the batch dispatches without an exception,
the serial loop concatenates the per-envelope traces in input order and
collects exactly the non-`None` responses, in order. -/
theorem batchLoop_ok (rt : MessageRuntime) (messages : List PyVal)
    (h : ∀ m ∈ messages, ∃ v, (rt.handle_message m).2 = .ok v) :
    batchLoop rt messages =
      ((messages.map (fun m => (rt.handle_message m).1)).flatten,
       .ok (messages.filterMap (fun m =>
         match (rt.handle_message m).2 with
         | .ok (.some v) => .some v
         | _ => .none))) := by
  induction messages with
  | nil => rfl
  | cons m ms ih =>
    obtain ⟨v, hv⟩ := h m (by simp)
    rcases hm : rt.handle_message m with ⟨t, res⟩
    rw [hm] at hv
    simp only at hv
    subst hv
    have ihr := ih (fun m' hm' => h m' (by simp [hm']))
    unfold batchLoop
    rw [hm, ihr]
    cases v <;> simp [hm]

/-- C6: `handle_batch` on the empty batch returns `[]` at once, whatever
batch handler is set; with a custom batch handler set and a non-empty
batch it returns exactly what the handler yields (`None` taken as `[]`,
exceptions propagated); and with no custom batch handler it dispatches
each envelope serially via `handle_message`, in input order (the trace
is the in-order concatenation of per-envelope traces), returning exactly
the non-`None` responses in order. -/
theorem handle_batch_spec (rt : MessageRuntime) :
    rt.handle_batch [] = ([], .ok []) ∧
    (∀ messages, messages ≠ [] → ∀ bh, rt.batchHandler = .some bh →
      rt.handle_batch messages =
        ((bh messages).1,
         match (bh messages).2 with
         | .error e => .error e
         | .ok res => .ok (res.getD []))) ∧
    (rt.batchHandler = .none → ∀ messages,
      (∀ m ∈ messages, ∃ v, (rt.handle_message m).2 = .ok v) →
      rt.handle_batch messages =
        ((messages.map (fun m => (rt.handle_message m).1)).flatten,
         .ok (messages.filterMap (fun m =>
           match (rt.handle_message m).2 with
           | .ok (.some v) => .some v
           | _ => .none)))) := by
  refine ⟨rfl, ?_, ?_⟩
  · intro messages hne bh hbh
    cases messages with
    | nil => exact absurd rfl hne
    | cons m ms =>
      unfold MessageRuntime.handle_batch
      rw [hbh]
      rcases hb : bh (m :: ms) with ⟨t, res⟩
      cases res <;> simp [hb]
  · intro hbh messages hok
    cases messages with
    | nil => rfl
    | cons m ms =>
      unfold MessageRuntime.handle_batch
      rw [hbh]
      simp only [List.isEmpty_cons, Bool.false_eq_true, if_false]
      exact batchLoop_ok rt (m :: ms) hok

/-- A custom batch handler returning an absent result. -/
def bhC6 : BatchHandlerFn := fun _ => ([], .ok .none)

/-- A runtime with only a custom batch handler. -/
def rtC6a : MessageRuntime := { batchHandler := .some bhC6 }

/-- A generic echo route. -/
def routeC6 : MessageRoute :=
  { predicate := noopPredicate, handler := fun m => ([], .ok (.some m)) }

/-- A runtime with a single echo route and no batch handler. -/
def rtC6b : MessageRuntime := { routes := [routeC6] }

/-- C6, witness: the three branches of `handle_batch` at concrete
inputs — empty batch, delegation with an absent result taken as `[]`,
and the serial default collecting the echoed response. -/
theorem handle_batch_spec_witness :
    rtC6a.handle_batch [] = ([], .ok []) ∧
    rtC6a.handle_batch [msgSimple] = ([], .ok []) ∧
    rtC6b.handle_batch [msgSimple] =
      ([Event.predicateEval 0 msgSimple], .ok [msgSimple]) := by
  refine ⟨(handle_batch_spec rtC6a).1, ?_, ?_⟩
  · exact ((handle_batch_spec rtC6a).2.1 [msgSimple] (by simp) bhC6 rfl).trans rfl
  · have hok : ∀ m ∈ [msgSimple], ∃ v, (rtC6b.handle_message m).2 = .ok v := by
      intro m hm
      rw [List.mem_singleton] at hm
      subst hm
      exact ⟨.some msgSimple, rfl⟩
    exact ((handle_batch_spec rtC6b).2.2 rfl [msgSimple] hok).trans rfl

/-- A key found in an association list is still found after appending
entries on the right. -/
theorem lookup_append_some (l extra : List (String × String)) (k v : String)
    (h : l.lookup k = .some v) : (l ++ extra).lookup k = .some v := by
  induction l with
  | nil => simp [List.lookup] at h
  | cons p ps ih =>
    rcases p with ⟨k', v'⟩
    simp only [List.cons_append, List.lookup] at h ⊢
    by_cases hk : k == k'
    · simp only [hk] at h ⊢
      exact h
    · simp only [hk] at h ⊢
      exact ih h

/-- The error produced by the duplicate-registration loop is always the
duplicate-type `ValueError` naming the incoming handler, never a
`TypeError`. -/
theorem checkDup_err_shape (hname : String) :
    ∀ (ts : List String) (explicit ex2 : List (String × String)) (err : AddRouteErr),
      checkDup explicit hname ts = (ex2, .some err) →
      ∃ t owner, err = .valueError t owner hname := by
  intro ts
  induction ts with
  | nil =>
    intro explicit ex2 err h
    simp [checkDup] at h
  | cons t ts ih =>
    intro explicit ex2 err h
    unfold checkDup at h
    cases hl : explicit.lookup t with
    | some owner =>
      rw [hl] at h
      simp only [Prod.mk.injEq, Option.some.injEq] at h
      exact ⟨t, owner, h.2.symm⟩
    | none =>
      rw [hl] at h
      exact ih _ _ _ h

/-- When some incoming type is already owned, the duplicate-registration
loop fails, and the owner map it leaves behind is the original map plus
entries (all naming the incoming handler) for the types examined before
the collision. -/
theorem checkDup_collision (hname : String) :
    ∀ (ts : List String) (explicit : List (String × String)),
      (∃ t ∈ ts, (explicit.lookup t).isSome = true) →
      ∃ extra err, checkDup explicit hname ts = (explicit ++ extra, .some err) ∧
        ∀ e ∈ extra, e.2 = hname := by
  intro ts
  induction ts with
  | nil =>
    rintro explicit ⟨t, ht, _⟩
    simp at ht
  | cons t ts ih =>
    rintro explicit ⟨t0, ht0, hs⟩
    unfold checkDup
    cases hl : explicit.lookup t with
    | some owner =>
      exact ⟨[], .valueError t owner hname, by simp, by simp⟩
    | none =>
      rcases List.mem_cons.mp ht0 with rfl | hmem
      · rw [hl] at hs
        simp at hs
      · have hs' : ((explicit ++ [(t, hname)]).lookup t0).isSome = true := by
          cases ho : explicit.lookup t0 with
          | none =>
            rw [ho] at hs
            simp at hs
          | some v =>
            rw [lookup_append_some explicit [(t, hname)] t0 v ho]
            rfl
        obtain ⟨extra, err, heq, htag⟩ := ih (explicit ++ [(t, hname)]) ⟨t0, hmem, hs'⟩
        refine ⟨(t, hname) :: extra, err, ?_, ?_⟩
        · rw [heq]
          simp
        · intro e he
          rcases List.mem_cons.mp he with rfl | he2
          · rfl
          · exact htag e he2

/-- When the first incoming type already has an owner, the
duplicate-registration loop fails at once and leaves the owner map
untouched. -/
theorem checkDup_head_collision (explicit : List (String × String)) (hname t : String)
    (ts : List String) (owner : String) (h : explicit.lookup t = .some owner) :
    checkDup explicit hname (t :: ts) = (explicit, .some (.valueError t owner hname)) := by
  unfold checkDup
  rw [h]

/-- For an argument whose type-set normalisation succeeds, `add_route`
never raises `TypeError`, and on success it appends exactly one route
carrying that type set. -/
theorem add_route_set_cases (rt : MessageRuntime) (p : PredicateFn) (h : HandlerFn)
    (name : Option String) (arg : MsgTypeArg) (ev : Option (List String)) (disp : String)
    (mts : List String) (single : Option String)
    (hset : computeTypeSet arg = .ok (.some mts, single)) :
    (rt.add_route p h name arg ev disp).2 ≠ .some .typeError ∧
    ((rt.add_route p h name arg ev disp).2 = .none →
      ∃ r, (rt.add_route p h name arg ev disp).1.routes = rt.routes ++ [r] ∧
        r.messageTypes = .some mts) := by
  unfold MessageRuntime.add_route
  rw [hset]
  rcases hcd : checkDup rt.explicitTypeHandlers (effName name disp) mts with ⟨ex2, errOpt⟩
  cases errOpt with
  | some err =>
    obtain ⟨t, owner, rfl⟩ :=
      checkDup_err_shape (effName name disp) mts rt.explicitTypeHandlers ex2 err hcd
    simp [hcd]
  | none =>
    simp only [hcd]
    refine ⟨by simp, fun _ => ⟨_, rfl, rfl⟩⟩

/-- A fresh runtime. -/
def emptyRuntime : MessageRuntime := {}

/-- C7, counterexample: a tuple of strings is a sequence of strings,
yet `add_route` rejects it with `TypeError` — only `str` and `list`
pass the `isinstance` discrimination — so the claim that any sequence
of strings is accepted fails. -/
theorem add_route_tuple_rejected_counterexample :
    emptyRuntime.add_route noopPredicate noopHandler .none (.tuple ["text"]) .none "f" =
      (emptyRuntime, .some .typeError) := rfl

/-- C7, amended: `add_route` accepts exactly the shapes `str` (treated
as the one-element set) and `list` (treated as the set of its
elements); a tuple — though a sequence of strings — and every other
value raise `TypeError` before any registration, leaving the runtime
untouched. -/
theorem add_route_message_type_shapes (rt : MessageRuntime) (p : PredicateFn)
    (h : HandlerFn) (name : Option String) (ev : Option (List String)) (disp : String) :
    (∀ s : String, (rt.add_route p h name (.str s) ev disp).2 ≠ .some .typeError ∧
      ((rt.add_route p h name (.str s) ev disp).2 = .none →
        ∃ r, (rt.add_route p h name (.str s) ev disp).1.routes = rt.routes ++ [r] ∧
          r.messageTypes = .some [s])) ∧
    (∀ xs : List String,
      (rt.add_route p h name (.list xs) ev disp).2 ≠ .some .typeError ∧
      ((rt.add_route p h name (.list xs) ev disp).2 = .none →
        ∃ r, (rt.add_route p h name (.list xs) ev disp).1.routes = rt.routes ++ [r] ∧
          r.messageTypes = .some xs.eraseDups)) ∧
    (∀ xs : List String,
      rt.add_route p h name (.tuple xs) ev disp = (rt, .some .typeError)) ∧
    rt.add_route p h name .other ev disp = (rt, .some .typeError) := by
  refine ⟨?_, ?_, fun _ => rfl, rfl⟩
  · intro s
    exact add_route_set_cases rt p h name (.str s) ev disp [s] (.some s) rfl
  · intro xs
    exact add_route_set_cases rt p h name (.list xs) ev disp xs.eraseDups
      (if xs.eraseDups.length == 1 then xs.eraseDups.head? else .none) rfl

/-- C7, witness: the amended theorem at concrete inputs — a string is
accepted and registered as the one-element set, and a tuple raises
`TypeError` leaving the runtime untouched. -/
theorem add_route_message_type_shapes_witness :
    (emptyRuntime.add_route noopPredicate noopHandler .none (.str "text") .none "f").2 ≠
      .some .typeError ∧
    (∃ r, (emptyRuntime.add_route noopPredicate noopHandler .none (.str "text") .none
        "f").1.routes = emptyRuntime.routes ++ [r] ∧ r.messageTypes = .some ["text"]) ∧
    emptyRuntime.add_route noopPredicate noopHandler .none (.tuple ["a", "b"]) .none "f" =
      (emptyRuntime, .some .typeError) := by
  have hthm := add_route_message_type_shapes emptyRuntime noopPredicate noopHandler
    .none .none "f"
  exact ⟨(hthm.1 "text").1, (hthm.1 "text").2 rfl, hthm.2.2.1 ["a", "b"]⟩

/-- A runtime where the type `"b"` is explicitly owned by `handler1`. -/
def rtC2 : MessageRuntime :=
  (emptyRuntime.add_route noopPredicate noopHandler (.some "handler1") (.str "b")
    .none "f1").1

/-- C2, counterexample: registering the type set `["a", "b"]` against a
registry that already owns `"b"` raises the duplicate-registration
error, yet the registry is not left exactly as it was: the
explicit-owner map has gained the entry for the non-colliding type
`"a"`, because the source records each owner while still scanning for
collisions. -/
theorem add_route_collision_mutates_owner_map :
    rtC2.explicitTypeHandlers = [("b", "handler1")] ∧
    (rtC2.add_route noopPredicate noopHandler (.some "handler2") (.list ["a", "b"])
        .none "f2").2 = .some (.valueError "b" "handler1" "handler2") ∧
    (rtC2.add_route noopPredicate noopHandler (.some "handler2") (.list ["a", "b"])
        .none "f2").1.explicitTypeHandlers = [("b", "handler1"), ("a", "handler2")] :=
  ⟨rfl, rfl, rfl⟩

/-- C2, amended: a colliding registration raises and appends no route —
the route list, the type index and the event index are all left exactly
as they were — but the explicit-owner map, while keeping every previous
entry, may additionally record (under the incoming handler name) the
non-colliding types examined before the collision; it is fully
unchanged when the colliding type is the first examined, in particular
whenever the incoming set is a singleton. -/
theorem add_route_collision_leaves_routes_unchanged (rt : MessageRuntime)
    (p : PredicateFn) (h : HandlerFn) (name : Option String) (arg : MsgTypeArg)
    (ev : Option (List String)) (disp : String) (mts : List String)
    (single : Option String)
    (hset : computeTypeSet arg = .ok (.some mts, single))
    (hcol : ∃ t ∈ mts, (rt.explicitTypeHandlers.lookup t).isSome = true) :
    (∃ t owner, (rt.add_route p h name arg ev disp).2 =
      .some (.valueError t owner (effName name disp))) ∧
    (rt.add_route p h name arg ev disp).1.routes = rt.routes ∧
    (rt.add_route p h name arg ev disp).1.typeRoutes = rt.typeRoutes ∧
    (rt.add_route p h name arg ev disp).1.eventRoutes = rt.eventRoutes ∧
    (∃ extra, (rt.add_route p h name arg ev disp).1.explicitTypeHandlers =
      rt.explicitTypeHandlers ++ extra ∧ ∀ e ∈ extra, e.2 = effName name disp) ∧
    (∀ t0 owner, mts.head? = .some t0 →
      rt.explicitTypeHandlers.lookup t0 = .some owner →
      (rt.add_route p h name arg ev disp).1.explicitTypeHandlers =
        rt.explicitTypeHandlers) := by
  obtain ⟨extra, err, heq, htag⟩ :=
    checkDup_collision (effName name disp) mts rt.explicitTypeHandlers hcol
  obtain ⟨t, owner, rfl⟩ :=
    checkDup_err_shape (effName name disp) mts rt.explicitTypeHandlers
      (rt.explicitTypeHandlers ++ extra) err heq
  have hmain : rt.add_route p h name arg ev disp =
      ({ rt with explicitTypeHandlers := rt.explicitTypeHandlers ++ extra },
       .some (.valueError t owner (effName name disp))) := by
    unfold MessageRuntime.add_route
    rw [hset]
    simp only [heq]
  rw [hmain]
  refine ⟨⟨t, owner, rfl⟩, rfl, rfl, rfl, ⟨extra, rfl, htag⟩, ?_⟩
  intro t0 ow hh hlk
  cases mts with
  | nil => simp at hh
  | cons a as =>
    simp only [List.head?_cons, Option.some.injEq] at hh
    subst hh
    have h2 := checkDup_head_collision rt.explicitTypeHandlers (effName name disp)
      a as ow hlk
    rw [heq] at h2
    simp only [Prod.mk.injEq] at h2
    show rt.explicitTypeHandlers ++ extra = rt.explicitTypeHandlers
    exact h2.1

/-- C2, witness: the amended theorem applied at the concrete colliding
registration used in the counterexample. -/
theorem add_route_collision_leaves_routes_unchanged_witness :
    computeTypeSet (.list ["a", "b"]) = .ok (.some ["a", "b"], .none) ∧
    ("b" ∈ ["a", "b"] ∧ (rtC2.explicitTypeHandlers.lookup "b").isSome = true) ∧
    (∃ t owner, (rtC2.add_route noopPredicate noopHandler (.some "handler2")
        (.list ["a", "b"]) .none "f2").2 =
      .some (.valueError t owner (effName (.some "handler2") "f2"))) ∧
    (rtC2.add_route noopPredicate noopHandler (.some "handler2") (.list ["a", "b"])
        .none "f2").1.routes = rtC2.routes ∧
    (rtC2.add_route noopPredicate noopHandler (.some "handler2") (.list ["a", "b"])
        .none "f2").1.typeRoutes = rtC2.typeRoutes := by
  have hthm := add_route_collision_leaves_routes_unchanged rtC2 noopPredicate
    noopHandler (.some "handler2") (.list ["a", "b"]) .none "f2" ["a", "b"] .none rfl
    ⟨"b", by simp, rfl⟩
  exact ⟨rfl, ⟨by simp, rfl⟩, hthm.1, hthm.2.1, hthm.2.2.1⟩


/-- Soundness of the candidate loop: a returned route was a candidate,
is the route stored at the returned index, and its predicate yielded
truthy. -/
theorem matchLoop_ok_some (routes : List MessageRoute) (message : PyVal) :
    ∀ (idxs seen : List Nat) (t : List Event) (seen2 : List Nat) (i : Nat)
      (r : MessageRoute),
      matchLoop routes message seen idxs = (t, seen2, .ok (.some (i, r))) →
      i ∈ idxs ∧ routes[i]? = .some r ∧ r.predicate message = .ok true := by
  intro idxs
  induction idxs with
  | nil =>
    intro seen t seen2 i r h
    simp [matchLoop] at h
  | cons i0 is ih =>
    intro seen t seen2 i r h
    unfold matchLoop at h
    split at h
    · obtain ⟨hmem, hr, hp⟩ := ih _ _ _ _ _ h
      exact ⟨List.mem_cons_of_mem _ hmem, hr, hp⟩
    · split at h
      · obtain ⟨hmem, hr, hp⟩ := ih _ _ _ _ _ h
        exact ⟨List.mem_cons_of_mem _ hmem, hr, hp⟩
      · rename_i hnseen r0 hro
        split at h
        · simp at h
        · rename_i hpr
          simp only [Prod.mk.injEq, Except.ok.injEq, Option.some.injEq] at h
          obtain ⟨-, -, hir⟩ := h
          obtain ⟨rfl, rfl⟩ := hir
          exact ⟨List.mem_cons_self _ _, hro, hpr⟩
        · rename_i hpr
          rcases hrest : matchLoop routes message (i0 :: seen) is with ⟨t', rest2⟩
          rw [hrest] at h
          simp only [Prod.mk.injEq] at h
          obtain ⟨-, hres⟩ := h
          rw [hres] at hrest
          obtain ⟨hmem, hr, hp⟩ := ih _ _ _ _ _ hrest
          exact ⟨List.mem_cons_of_mem _ hmem, hr, hp⟩

/-- Exhaustiveness of the candidate loop: when it finds nothing, every
candidate was either already seen on entry or the predicate of its
stored route yielded falsy. -/
theorem matchLoop_ok_none (routes : List MessageRoute) (message : PyVal) :
    ∀ (idxs seen : List Nat) (t : List Event) (seen2 : List Nat),
      matchLoop routes message seen idxs = (t, seen2, .ok .none) →
      ∀ i ∈ idxs, i ∈ seen ∨
        ∀ r, routes[i]? = .some r → r.predicate message = .ok false := by
  intro idxs
  induction idxs with
  | nil =>
    intro seen t seen2 h i hi
    simp at hi
  | cons i0 is ih =>
    intro seen t seen2 h i hi
    unfold matchLoop at h
    split at h
    · rename_i hsn
      rcases List.mem_cons.mp hi with rfl | hmem
      · exact Or.inl hsn
      · exact ih seen t seen2 h i hmem
    · rename_i hsn
      split at h
      · rename_i hro
        rcases List.mem_cons.mp hi with rfl | hmem
        · refine Or.inr (fun r hr => ?_)
          rw [hro] at hr
          cases hr
        · rcases ih (i0 :: seen) t seen2 h i hmem with hin | hP
          · rcases List.mem_cons.mp hin with rfl | hin2
            · refine Or.inr (fun r hr => ?_)
              rw [hro] at hr
              cases hr
            · exact Or.inl hin2
          · exact Or.inr hP
      · rename_i r0 hro
        split at h
        · simp at h
        · simp at h
        · rename_i hpr
          rcases hrest : matchLoop routes message (i0 :: seen) is with ⟨t', rest2⟩
          rw [hrest] at h
          simp only [Prod.mk.injEq] at h
          obtain ⟨-, hres⟩ := h
          rw [hres] at hrest
          rcases List.mem_cons.mp hi with rfl | hmem
          · refine Or.inr (fun r hr => ?_)
            rw [hro] at hr
            exact (Option.some.inj hr) ▸ hpr
          · rcases ih (i0 :: seen) t' seen2 hrest i hmem with hin | hP
            · rcases List.mem_cons.mp hin with rfl | hin2
              · refine Or.inr (fun r hr => ?_)
                rw [hro] at hr
                exact (Option.some.inj hr) ▸ hpr
              · exact Or.inl hin2
            · exact Or.inr hP

/-- Completeness of the candidate loop: when the predicate of no
unseen candidate raises and the predicate of some unseen candidate yields truthy,
the loop returns a route. -/
theorem matchLoop_finds (routes : List MessageRoute) (message : PyVal) :
    ∀ (idxs seen : List Nat),
      (∀ i ∈ idxs, i ∉ seen → ∀ r, routes[i]? = .some r →
        ∃ b, r.predicate message = .ok b) →
      (∃ i ∈ idxs, i ∉ seen ∧ ∃ r, routes[i]? = .some r ∧
        r.predicate message = .ok true) →
      ∃ t seen2 j rj,
        matchLoop routes message seen idxs = (t, seen2, .ok (.some (j, rj))) := by
  intro idxs
  induction idxs with
  | nil =>
    rintro seen - ⟨i, hi, -⟩
    simp at hi
  | cons i0 is ih =>
    rintro seen hall ⟨i, hi, hns, r, hr, hp⟩
    have htail : ∀ sn, i ≠ i0 → i ∉ sn → seen ⊆ sn →
        (∀ i' ∈ is, i' ∉ sn → ∀ r', routes[i']? = .some r' →
          ∃ b, r'.predicate message = .ok b) →
        ∃ t seen2 j rj,
          matchLoop routes message sn is = (t, seen2, .ok (.some (j, rj))) := by
      intro sn hne hnsn hsub hall'
      refine ih sn hall' ⟨i, ?_, hnsn, r, hr, hp⟩
      rcases List.mem_cons.mp hi with rfl | hm
      · exact absurd rfl hne
      · exact hm
    unfold matchLoop
    by_cases hsn : i0 ∈ seen
    · rw [if_pos hsn]
      have hne : i ≠ i0 := fun he => hns (he ▸ hsn)
      exact htail seen hne hns (fun a ha => ha)
        (fun i' hi' hn' r' hr' => hall i' (List.mem_cons_of_mem _ hi') hn' r' hr')
    · rw [if_neg hsn]
      cases hro : routes[i0]? with
      | none =>
        have hne : i ≠ i0 := by
          intro he
          rw [he, hro] at hr
          cases hr
        have hns' : i ∉ i0 :: seen := by
          intro hin
          rcases List.mem_cons.mp hin with h2 | h2
          · exact hne h2
          · exact hns h2
        exact htail (i0 :: seen) hne hns' (fun a ha => List.mem_cons_of_mem _ ha)
          (fun i' hi' hn' r' hr' => hall i' (List.mem_cons_of_mem _ hi')
            (fun hc => hn' (List.mem_cons_of_mem _ hc)) r' hr')
      | some r0 =>
        obtain ⟨b, hb⟩ := hall i0 (List.mem_cons_self _ _) hsn r0 hro
        cases b with
        | true =>
          simp only [hro, hb]
          exact ⟨_, _, i0, r0, rfl⟩
        | false =>
          simp only [hro, hb]
          have hne : i ≠ i0 := by
            intro he
            rw [he, hro] at hr
            rw [Option.some.inj hr] at hb
            rw [hp] at hb
            simp at hb
          have hns' : i ∉ i0 :: seen := by
            intro hin
            rcases List.mem_cons.mp hin with h2 | h2
            · exact hne h2
            · exact hns h2
          obtain ⟨t, seen2, j, rj, hml⟩ := htail (i0 :: seen) hne hns'
            (fun a ha => List.mem_cons_of_mem _ ha)
            (fun i' hi' hn' r' hr' => hall i' (List.mem_cons_of_mem _ hi')
              (fun hc => hn' (List.mem_cons_of_mem _ hc)) r' hr')
          rw [hml]
          exact ⟨_, _, j, rj, rfl⟩

/-- Bucket well-formedness: every index stored in a type bucket points
at a stored route whose `message_types` is set, and every index stored
in an event bucket points at a stored route whose `event_types` is set.
`add_route` only ever indexes a route under a type (resp. event) when
it stores a non-`None` type set (resp. event set), so every runtime
built through `add_route` satisfies this. -/
def bucketsWF (rt : MessageRuntime) : Bool :=
  rt.typeRoutes.all (fun kv => kv.2.all (fun i =>
    match rt.routes[i]? with
    | .some r => r.messageTypes.isSome
    | .none => false)) &&
  rt.eventRoutes.all (fun kv => kv.2.all (fun i =>
    match rt.routes[i]? with
    | .some r => r.eventTypes.isSome
    | .none => false))

/-- A successful association-list lookup locates a stored entry. -/
theorem lookup_mem_bucket (l : List (String × List Nat)) (k : String) (b : List Nat)
    (h : l.lookup k = .some b) : (k, b) ∈ l := by
  induction l with
  | nil => simp [List.lookup] at h
  | cons p ps ih =>
    rcases p with ⟨k', b'⟩
    simp only [List.lookup] at h
    by_cases hk : (k == k') = true
    · simp only [hk] at h
      have hkk : k = k' := eq_of_beq hk
      have hbb : b' = b := Option.some.inj h
      subst hkk
      subst hbb
      exact List.mem_cons_self _ _
    · rw [Bool.not_eq_true] at hk
      simp only [hk] at h
      exact List.mem_cons_of_mem _ (ih h)

/-- Under bucket well-formedness, a priority candidate is never a
generic route: it carries an explicit `message_types` set or an
explicit `event_types` set. -/
theorem priority_member_not_generic (rt : MessageRuntime) (message : PyVal)
    (hwf : bucketsWF rt = true) (i : Nat) (hi : i ∈ priorityIdx rt message)
    (r : MessageRoute) (hr : rt.routes[i]? = .some r) :
    r.messageTypes.isSome = true ∨ r.eventTypes.isSome = true := by
  unfold bucketsWF at hwf
  rw [Bool.and_eq_true] at hwf
  obtain ⟨hty, hev⟩ := hwf
  simp only [priorityIdx] at hi
  rw [List.mem_append] at hi
  rcases hi with hiev | hity
  · right
    cases het : eventTypeOf message with
    | str s =>
      rw [het] at hiev
      simp only [] at hiev
      by_cases hs : s.isEmpty = true
      · rw [if_pos hs] at hiev
        simp at hiev
      · rw [if_neg hs] at hiev
        cases hlk : rt.eventRoutes.lookup s with
        | none =>
          rw [hlk] at hiev
          simp at hiev
        | some b =>
          rw [hlk] at hiev
          simp only [Option.getD_some] at hiev
          have h1 := List.all_eq_true.mp hev (s, b) (lookup_mem_bucket _ s b hlk)
          have h2 := List.all_eq_true.mp h1 i hiev
          rw [hr] at h2
          exact h2
    | none =>
      rw [het] at hiev
      simp at hiev
    | dict fs =>
      rw [het] at hiev
      simp at hiev
    | list xs =>
      rw [het] at hiev
      simp at hiev
  · left
    cases het : extract_segment_type message with
    | str s =>
      rw [het] at hity
      simp only [] at hity
      by_cases hs : s.isEmpty = true
      · rw [if_pos hs] at hity
        simp at hity
      · rw [if_neg hs] at hity
        cases hlk : rt.typeRoutes.lookup s with
        | none =>
          rw [hlk] at hity
          simp at hity
        | some b =>
          rw [hlk] at hity
          simp only [Option.getD_some] at hity
          have h1 := List.all_eq_true.mp hty (s, b) (lookup_mem_bucket _ s b hlk)
          have h2 := List.all_eq_true.mp h1 i hity
          rw [hr] at h2
          exact h2
    | none =>
      rw [het] at hity
      simp at hity
    | dict fs =>
      rw [het] at hity
      simp at hity
    | list xs =>
      rw [het] at hity
      simp at hity

/-- C1, amended: over a runtime with well-formed buckets, for an
envelope whose priority candidates (the event bucket of its truthy
event type followed by the type bucket of its truthy, non-empty
extracted segment type) all have predicates that yield a value: if the
predicate of some priority candidate yields truthy then the matcher returns a
priority candidate — never a generic route (one with neither
`message_types` nor `event_types`) — and conversely a returned generic
route implies that the predicate of every priority candidate yielded falsy.  (The
unamended claim fails for the empty-string segment type, which the
matcher guard treats as falsy and never looks up.) -/
theorem match_route_priority_shadows_generic (rt : MessageRuntime) (message : PyVal)
    (hwf : bucketsWF rt = true) :
    ((∀ i ∈ priorityIdx rt message, ∀ r, rt.routes[i]? = .some r →
        ∃ b, r.predicate message = .ok b) →
      (∃ i ∈ priorityIdx rt message, ∃ r, rt.routes[i]? = .some r ∧
        r.predicate message = .ok true) →
      ∃ j rj, (rt.match_route message).2 = .ok (.some (j, rj)) ∧
        j ∈ priorityIdx rt message ∧ rt.routes[j]? = .some rj ∧
        ¬(rj.messageTypes = .none ∧ rj.eventTypes = .none)) ∧
    (∀ j rj, (rt.match_route message).2 = .ok (.some (j, rj)) →
      rj.messageTypes = .none → rj.eventTypes = .none →
      ∀ i ∈ priorityIdx rt message, ∀ r, rt.routes[i]? = .some r →
        r.predicate message = .ok false) := by
  constructor
  · intro hall hsome
    obtain ⟨i, hi, r, hr, hp⟩ := hsome
    obtain ⟨t, seen2, j, rj, hml⟩ := matchLoop_finds rt.routes message
      (priorityIdx rt message) []
      (fun i' hi' _ r' hr' => hall i' hi' r' hr')
      ⟨i, hi, by simp, r, hr, hp⟩
    obtain ⟨hmem, hrj, hpj⟩ := matchLoop_ok_some rt.routes message _ _ _ _ _ _ hml
    have hres : (rt.match_route message).2 = .ok (.some (j, rj)) := by
      unfold MessageRuntime.match_route
      rw [hml]
    refine ⟨j, rj, hres, hmem, hrj, ?_⟩
    rintro ⟨hmt, hetg⟩
    rcases priority_member_not_generic rt message hwf j hmem rj hrj with hx | hx
    · rw [hmt] at hx
      simp at hx
    · rw [hetg] at hx
      simp at hx
  · intro j rj hres hmt hetg i hi r hr
    rcases hp1 : matchLoop rt.routes message [] (priorityIdx rt message)
      with ⟨t1, seen1, res1⟩
    cases res1 with
    | error e =>
      have hres2 : (rt.match_route message).2 = .error e := by
        unfold MessageRuntime.match_route
        rw [hp1]
      rw [hres2] at hres
      simp at hres
    | ok opt =>
      cases opt with
      | none =>
        rcases matchLoop_ok_none rt.routes message (priorityIdx rt message) [] t1 seen1
          hp1 i hi with hin | hP
        · simp at hin
        · exact hP r hr
      | some ir =>
        rcases ir with ⟨jx, rjx⟩
        have hres2 : (rt.match_route message).2 = .ok (.some (jx, rjx)) := by
          unfold MessageRuntime.match_route
          rw [hp1]
        rw [hres2] at hres
        simp only [Except.ok.injEq, Option.some.injEq, Prod.mk.injEq] at hres
        obtain ⟨rfl, rfl⟩ := hres
        obtain ⟨hmem, hrj, -⟩ := matchLoop_ok_some rt.routes message _ _ _ _ _ _ hp1
        rcases priority_member_not_generic rt message hwf _ hmem _ hrj with hx | hx
        · rw [hmt] at hx
          simp at hx
        · rw [hetg] at hx
          simp at hx

/-- A runtime holding a route explicitly registered for the segment
type `""` and a later generic route, both built through `add_route`. -/
def rtC1 : MessageRuntime :=
  ((emptyRuntime.add_route noopPredicate noopHandler (.some "empty-type") (.str "")
      .none "f1").1.add_route noopPredicate noopHandler (.some "generic") .none
    .none "f2").1

/-- An envelope whose extracted segment type is the empty string. -/
def envC1 : PyVal := .dict [("message_segment", .dict [("type", .str "")])]

/-- C1, counterexample: route 0 explicitly holds the segment type
`t = extract_segment_type(envC1) = ""` and its predicate yields truthy
on the envelope, yet the matcher returns route 1 — a generic route
(neither `message_types` nor `event_types`): the matcher guard
`if message_type and ...` treats the empty-string type as falsy and
never consults the `""` bucket, so the claim fails as stated. -/
theorem match_route_empty_type_counterexample :
    extract_segment_type envC1 = .str "" ∧
    (rtC1.routes[0]?.map fun r => (r.messageTypes, r.predicate envC1)) =
      .some (.some [""], .ok true) ∧
    (match (rtC1.match_route envC1).2 with
     | .ok (.some (i, r)) => Option.some (i, r.messageTypes, r.eventTypes)
     | _ => (Option.none : Option (Nat × Option (List String) × Option (List String)))) =
      Option.some (1, Option.none, Option.none) :=
  ⟨rfl, rfl, rfl⟩

/-- The explicit text route of the C1 witness runtime. -/
def routeW0 : MessageRoute :=
  { predicate := noopPredicate, handler := noopHandler, name := .some "texthandler",
    messageType := .some "text", messageTypes := .some ["text"], eventTypes := .none }

/-- The generic route of the C1 witness runtime. -/
def routeW1 : MessageRoute :=
  { predicate := noopPredicate, handler := noopHandler, name := .some "generic" }

/-- The C1 witness runtime: an explicit `"text"` route indexed in the
type bucket, followed by a generic route. -/
def rtW : MessageRuntime :=
  { routes := [routeW0, routeW1], typeRoutes := [("text", [0])],
    explicitTypeHandlers := [("text", "texthandler")] }

example : ((emptyRuntime.add_route noopPredicate noopHandler (.some "texthandler")
    (.str "text") .none "f1").1.add_route noopPredicate noopHandler (.some "generic")
    .none .none "f2").1 = rtW := rfl

/-- A text envelope for the C1 witness. -/
def envW : PyVal := .dict [("message_segment", .dict [("type", .str "text")])]

/-- C1, witness: the amended theorem applied to the witness runtime and
the text envelope — the matcher picks the explicit text route (index 0)
and not the generic one. -/
theorem match_route_priority_shadows_generic_witness :
    bucketsWF rtW = true ∧
    (∃ j rj, (rtW.match_route envW).2 = .ok (.some (j, rj)) ∧
      j ∈ priorityIdx rtW envW ∧ rtW.routes[j]? = .some rj ∧
      ¬(rj.messageTypes = .none ∧ rj.eventTypes = .none)) ∧
    (rtW.match_route envW).2 = .ok (.some (0, routeW0)) := by
  have hall : ∀ i ∈ priorityIdx rtW envW, ∀ r, rtW.routes[i]? = .some r →
      ∃ b, r.predicate envW = .ok b := by
    intro i hi r hr
    rw [show priorityIdx rtW envW = [0] from rfl, List.mem_singleton] at hi
    subst hi
    rw [show rtW.routes[0]? = .some routeW0 from rfl] at hr
    obtain rfl := Option.some.inj hr
    exact ⟨true, rfl⟩
  have hsome : ∃ i ∈ priorityIdx rtW envW, ∃ r, rtW.routes[i]? = .some r ∧
      r.predicate envW = .ok true := by
    refine ⟨0, ?_, routeW0, rfl, rfl⟩
    rw [show priorityIdx rtW envW = [0] from rfl]
    exact List.mem_singleton.mpr rfl
  exact ⟨rfl,
    (match_route_priority_shadows_generic rtW envW rfl).1 hall hsome, rfl⟩
